import Mathlib

set_option maxRecDepth 8000

/-!
Verification development for the build/packaging script of the
kcd2_no_combat_music repository (src/scripts/build.js).

The script is shallowly embedded below: paths and other JavaScript strings
become lists of characters, the filesystem tree seen by the packer becomes a
mutual inductive tree, the straight-line effectful code becomes pure functions
producing traces of actions, and the size-splitting pak loop becomes a
fuel-indexed function (the fuel bounds the number of loop rounds; `none` means
the loop cannot finish within any round budget, i.e. it does not terminate).
External tools (zip, 7z) are opaque collaborators; their invocations are
recorded as trace actions and are modelled as succeeding.
-/

abbrev Str := List Char

-- `a.startsWith(b)` on lists of characters (first argument is the string,
-- second the pattern).
def listStartsWith : Str → Str → Bool
  | _, [] => true
  | [], _ :: _ => false
  | c :: cs, p :: ps => c == p && listStartsWith cs ps

-- `a.endsWith(b)`: the pattern is a suffix of the string.
def listEndsWith (s pat : Str) : Bool := listStartsWith s.reverse pat.reverse

-- `s.toLowerCase()` (ASCII, which covers the `.pak`, `.PAK`, ... cases).
def lowerChars (s : Str) : Str := s.map Char.toLower

-- build.js line 105: `fullPath.toLowerCase().endsWith(".pak")`.
def endsPakCI (s : Str) : Bool := listEndsWith (lowerChars s) (".pak".data)

-- `join(dir, item)` from node:path, with the posix separator.
def joinPath (d nm : Str) : Str := d ++ '/' :: nm

-- JavaScript `s.replace(pat, rep)` with a plain-string pattern: replace the
-- first occurrence only; if the pattern does not occur, return the string
-- unchanged (build.js lines 128 and 157 use it with the pattern ".pak").
def replaceFirst (pat rep : Str) : Str → Str
  | [] => if pat = [] then rep else []
  | c :: rest =>
    if listStartsWith (c :: rest) pat then rep ++ (c :: rest).drop pat.length
    else c :: replaceFirst pat rep rest

/-! The filesystem tree walked by `buildFileList` (build.js lines 98-110).
An entry is a file with a name and a byte size, or a directory with a name
and its children in `readdirSync` order. -/

mutual
inductive Entry where
  | file (name : Str) (size : Nat)
  | dir (name : Str) (entries : EntryList)
inductive EntryList where
  | nil
  | cons (e : Entry) (rest : EntryList)
end

/-! Enumeration of every file under a directory, in traversal order, with its
full path, its own name, and its size.  This is the source traversal with the
`.pak` filter removed; it only serves as the reference point against which the
filter of `buildFileList` is stated. -/

mutual
def entryAllFiles (dir : Str) : Entry → List (Str × Str × Nat)
  | Entry.file nm sz => [(joinPath dir nm, nm, sz)]
  | Entry.dir nm subs => allFiles (joinPath dir nm) subs
def allFiles (dir : Str) : EntryList → List (Str × Str × Nat)
  | EntryList.nil => []
  | EntryList.cons e rest => entryAllFiles dir e ++ allFiles dir rest
end

/-! build.js lines 98-112, `buildFileList`: recursive traversal collecting
full paths of files, skipping any file whose full path, lowercased, ends in
".pak".  Directories are always recursed into.  The byte size of each file is
carried along with the path (the source reads it later via `statSync`; the
pair is the pure image of path plus filesystem). -/

mutual
def entryBuildFiles (dir : Str) : Entry → List (Str × Nat)
  | Entry.file nm sz =>
    if endsPakCI (joinPath dir nm) then [] else [(joinPath dir nm, sz)]
  | Entry.dir nm subs => buildFileList (joinPath dir nm) subs
def buildFileList (dir : Str) : EntryList → List (Str × Nat)
  | EntryList.nil => []
  | EntryList.cons e rest => entryBuildFiles dir e ++ buildFileList dir rest
end

/-! The size-splitting pak loop, build.js lines 119-162. -/

-- build.js line 120: `const maxSizeBytes = 2 * 1024 * 1024 * 1024;`
def maxSizeBytes : Nat := 2 * 1024 * 1024 * 1024

-- The inner for loop (build.js lines 134-142): starting from a running total
-- `acc`, greedily take files while the total stays ≤ max; stop at the first
-- file whose addition would make the total exceed max.  Returns the files
-- taken for the current part and the files left over.  `sz` projects the
-- byte size out of a file (the loop reads `statSync(file).size`).
def takePart (sz : α → Nat) (max acc : Nat) : List α → List α × List α
  | [] => ([], [])
  | f :: rest =>
    if max < acc + sz f then ([], f :: rest)
    else (f :: (takePart sz max (acc + sz f) rest).1, (takePart sz max (acc + sz f) rest).2)

-- The outer while loop (build.js lines 125-162) reduced to the partition it
-- computes: each round carves one part off the front of the remaining list.
-- A round that takes no file leaves the list unchanged, so the loop never
-- finishes; the fuel argument caps the number of rounds and `none` reports
-- that no number of rounds empties the list.
def pakPartsFuel (sz : α → Nat) (max : Nat) : Nat → List α → Option (List (List α))
  | _, [] => some []
  | 0, _ :: _ => none
  | fuel + 1, f :: rest =>
    match pakPartsFuel sz max fuel (takePart sz max 0 (f :: rest)).2 with
    | some parts => some ((takePart sz max 0 (f :: rest)).1 :: parts)
    | none => none

-- The partition of a list of byte sizes computed by `compressToPak` with the
-- fixed 2 GiB bound.  One file is consumed per round at minimum, so
-- `sizes.length` rounds of fuel decide termination: a terminating loop run
-- yields `some parts`, a run that stops making progress yields `none`.
def compressToPakPlan (sizes : List Nat) : Option (List (List Nat)) :=
  pakPartsFuel (fun s => s) maxSizeBytes sizes.length sizes

-- build.js lines 128/157: the "-partN" suffix spliced in for `.pak`.
def partSfx (n : Nat) : Str := "-part".data ++ (Nat.repr n).data ++ ".pak".data

-- `pakOutputPath.replace(".pak", "-partN.pak")`.
def partPakPath (base : Str) (n : Nat) : Str :=
  replaceFirst (".pak".data) (partSfx n) base

-- The outer while loop again, now also tracking the pak part number and the
-- name under which each part ends up on disk (build.js lines 125-161):
-- part number 0 is first written at the plain output path and renamed to the
-- "-part0" name only when files remain after it; later parts are written
-- directly under their "-partN" names; the part number advances only when
-- files remain.
def pakLoopNamed (sz : α → Nat) (max : Nat) (base : Str) :
    Nat → Nat → List α → Option (List (Str × List α))
  | _, _, [] => some []
  | 0, _, _ :: _ => none
  | fuel + 1, partNo, f :: rest =>
    if (takePart sz max 0 (f :: rest)).2.isEmpty then
      match pakLoopNamed sz max base fuel partNo (takePart sz max 0 (f :: rest)).2 with
      | some entries =>
        some (((if partNo = 0 then base else partPakPath base partNo),
               (takePart sz max 0 (f :: rest)).1) :: entries)
      | none => none
    else
      match pakLoopNamed sz max base fuel (partNo + 1) (takePart sz max 0 (f :: rest)).2 with
      | some entries =>
        some (((if partNo = 0 then partPakPath base 0 else partPakPath base partNo),
               (takePart sz max 0 (f :: rest)).1) :: entries)
      | none => none

/-! Traces.  Every observable step of the script becomes one action. -/

inductive Act where
  | log (msg : Str)
  | logError (msg : Str)
  | exitCode (code : Nat)
  | rmStagingDir
  | mkStagingDir
  | copySrcToStaging
  | packDataStep
  | packModStep (outputFileName : Str)
  | zipCall (pakPath : Str) (relFiles : List Str)
  | renamePak (src dst : Str)
  | rmFile (path : Str)
  | sevenZipCall (zipPath : Str) (stagingDir : Str)
deriving DecidableEq

def Act.isLogAct : Act → Bool
  | Act.log _ => true
  | _ => false

def Act.isZipCall : Act → Bool
  | Act.zipCall _ _ => true
  | _ => false

-- The staging directory mutations of build.js lines 75-82: deletion,
-- creation and the recursive copy into it.
def stagingMutation : Act → Bool
  | Act.rmStagingDir => true
  | Act.mkStagingDir => true
  | Act.copySrcToStaging => true
  | _ => false

def sevenZipTargets : List Act → List Str
  | [] => []
  | Act.sevenZipCall p _ :: rest => p :: sevenZipTargets rest
  | _ :: rest => sevenZipTargets rest

-- `relative(dataSourceDirectory, file)` for the paths built by the traversal,
-- which all have the shape `dataSourceDirectory ++ "/" ++ rel`.
def relPathOf (dir full : Str) : Str := full.drop (dir.length + 1)

def quoteStr (s : Str) : Str := '"' :: s ++ ['"']

def joinSpaced : List Str → Str
  | [] => []
  | [s] => s
  | s :: rest => s ++ ' ' :: joinSpaced rest

-- build.js line 145: the zip command.
def zipCmdStr (pakPath : Str) (rels : List Str) : Str :=
  "zip -r -9 -X ".data ++ quoteStr pakPath ++ ' ' :: joinSpaced (rels.map quoteStr)

def creatingPakMsg (partNo : Nat) (cmd : Str) : Str :=
  "Creating pak part ".data ++ (Nat.repr partNo).data ++ ": ".data ++ cmd

-- build.js line 115 (quote characters around the directory interpolation are
-- left out of the model).
def noFilesMsg (dir : Str) : Str :=
  "ERROR: No files found in ".data ++ dir ++ " to pack.".data

-- The pak loop as the list of actions it performs, in order: per round a log
-- line and one zip invocation for the current part, then, when files remain
-- and this was part 0, the retroactive rename of the plain output to the
-- "-part0" name.  External zip calls are modelled as succeeding, so the
-- existsSync check after each call (build.js lines 149-152) passes silently.
-- A round that takes no file repeats forever; fuel truncates the trace there.
def pakRunTrace (dir base : Str) : Nat → Nat → List (Str × Nat) → List Act
  | 0, _, _ => []
  | _ + 1, _, [] => []
  | fuel + 1, partNo, f :: rest =>
    Act.log (creatingPakMsg partNo
      (zipCmdStr (if partNo = 0 then base else partPakPath base partNo)
        (((takePart (fun pr => pr.2) maxSizeBytes 0 (f :: rest)).1).map
          (fun g => relPathOf dir g.1)))) ::
    Act.zipCall (if partNo = 0 then base else partPakPath base partNo)
      (((takePart (fun pr => pr.2) maxSizeBytes 0 (f :: rest)).1).map
        (fun g => relPathOf dir g.1)) ::
    ((if (takePart (fun pr => pr.2) maxSizeBytes 0 (f :: rest)).2 = [] then []
      else if partNo = 0 then [Act.renamePak base (partPakPath base 0)] else []) ++
     pakRunTrace dir base fuel
       (if (takePart (fun pr => pr.2) maxSizeBytes 0 (f :: rest)).2 = [] then partNo
        else partNo + 1)
       (takePart (fun pr => pr.2) maxSizeBytes 0 (f :: rest)).2)

-- build.js lines 94-162, `compressToPak`: enumerate, fail on an empty
-- enumeration before any zip call, otherwise run the pak loop.
def compressToPakTrace (tree : EntryList) (dataSourceDirectory pakOutputPath : Str) :
    List Act :=
  if buildFileList dataSourceDirectory tree = [] then
    [Act.logError (noFilesMsg dataSourceDirectory), Act.exitCode 1]
  else
    pakRunTrace dataSourceDirectory pakOutputPath
      (buildFileList dataSourceDirectory tree).length 0
      (buildFileList dataSourceDirectory tree)

/-! The manifest field extraction, build.js lines 66-68: the JavaScript
regular expressions `<modid>(.+?)<\/modid>` and alike, under `exec`, return
the earliest match, and at the earliest possible start the lazy `(.+?)` takes
the shortest run of one or more non-newline characters followed by the
closing tag.  The capture is that run. -/

-- At a fixed position (just after the opening tag): the shortest run of one
-- or more non-newline characters after which the closing tag follows.
def lazyScan (cls : Str) : Str → Option Str
  | [] => none
  | c :: rest =>
    if c = '\n' then none
    else if listStartsWith rest cls then some [c]
    else match lazyScan cls rest with
      | some cs => some (c :: cs)
      | none => none

-- Scan start positions left to right; at each position where the opening tag
-- matches, try the lazy content match, otherwise (or on failure) move one
-- character forward.
def execTagFrom (opn cls : Str) : Str → Option Str
  | [] => none
  | c :: rest =>
    if listStartsWith (c :: rest) opn then
      match lazyScan cls ((c :: rest).drop opn.length) with
      | some content => some content
      | none => execTagFrom opn cls rest
    else execTagFrom opn cls rest

def execTag (tag : Str) (s : Str) : Option Str :=
  execTagFrom ('<' :: tag ++ ['>']) ('<' :: '/' :: tag ++ ['>']) s

/-! The command line interface, build.js lines 17-53. -/

-- `arg.split("=")[1]`: the run of characters between the first and the
-- second "=" (or the end of the string).
def afterFirstEq (s : Str) : Str :=
  ((s.dropWhile (fun c => !(c == '='))).drop 1).takeWhile (fun c => !(c == '='))

-- `args.find(a => a.startsWith(pfx))?.split("=")[1]`.
def flagVal (pfx : Str) (args : List Str) : Option Str :=
  match args.find? (fun a => listStartsWith a pfx) with
  | some a => some (afterFirstEq a)
  | none => none

-- The JavaScript `a || b || c` chain over strings: the first present,
-- non-empty (truthy) value, else the default.
def firstTruthy : List (Option Str) → Str → Str
  | [], dflt => dflt
  | none :: rest, dflt => firstTruthy rest dflt
  | some v :: rest, dflt => if v = [] then firstTruthy rest dflt else v

-- build.js lines 18-21: flag, then the MODE environment variable, then "dev".
def envOf (args : List Str) (modeEnv : Option Str) : Str :=
  firstTruthy [flagVal ("--env=".data) args, modeEnv] ("dev".data)

-- build.js lines 22-25: flag, then the VERSION environment variable, then
-- "main".
def versionOf (args : List Str) (versionEnv : Option Str) : Str :=
  firstTruthy [flagVal ("--version=".data) args, versionEnv] ("main".data)

def validEnvironments : List Str := ["prod".data, "dev".data]

def validVersions : List Str := ["main".data, "lorem-ipsum".data]

def usageMsg : Str :=
  ("\nUsage: node build.js [--env=prod|dev] [--version=main|lorem-ipsum] [--help]\n" ++
   "--env=prod|dev          Sets the environment (default: prod).\n" ++
   "--version=main|lorem-ipsum   Sets the version (default: main).\n" ++
   "--help                  Displays this help message.\n").data

-- build.js lines 42-44 and 49-51 (quote characters around the interpolated
-- value are left out of the model).
def invalidEnvMsg (env : Str) : Str :=
  "ERROR: Invalid --env value ".data ++ env ++ ". Must be one of: prod, dev".data

def invalidVersionMsg (v : Str) : Str :=
  "ERROR: Invalid --version value ".data ++ v ++
    ". Must be one of: main, lorem-ipsum".data

def manifestMissingMsg : Str := "ERROR: mod.manifest not found in src!".data

-- build.js line 71: one fixed message for every combination of missing
-- manifest fields.
def missingFieldsMsg : Str := "ERROR: Missing required fields in mod.manifest.".data

def buildingMsg (kind version : Str) : Str :=
  "Building ".data ++ kind ++ " version (".data ++ version ++ ")...".data

-- build.js lines 197-209: the environment dispatch.  Both recognized
-- branches are written out separately below exactly as in the source, which
-- duplicates the four build calls.
def environmentDispatch (environment modName version : Str) : List Act :=
  if environment = "prod".data then
    [Act.log (buildingMsg ("production".data) version),
     Act.rmStagingDir, Act.mkStagingDir, Act.copySrcToStaging,
     Act.packDataStep, Act.packModStep (modName ++ '_' :: version)]
  else if environment = "dev".data then
    [Act.log (buildingMsg ("development".data) version),
     Act.rmStagingDir, Act.mkStagingDir, Act.copySrcToStaging,
     Act.packDataStep, Act.packModStep (modName ++ '_' :: version)]
  else []

-- The top-level control flow of build.js: help (lines 31-39), flag
-- validation (41-53), manifest existence (60-63), field extraction and
-- validation (65-73), then the environment dispatch (197-209).  The capture
-- of each tag regex is never the empty string, so the JavaScript truthiness
-- test on the three fields is exactly the match on the three options.
def mainTrace (args : List Str) (modeEnv versionEnv : Option Str)
    (manifestExists : Bool) (manifest : Str) : List Act :=
  if args.contains ("--help".data) then
    [Act.log usageMsg, Act.exitCode 0]
  else if !(validEnvironments.contains (envOf args modeEnv)) then
    [Act.logError (invalidEnvMsg (envOf args modeEnv)), Act.exitCode 1]
  else if !(validVersions.contains (versionOf args versionEnv)) then
    [Act.logError (invalidVersionMsg (versionOf args versionEnv)), Act.exitCode 1]
  else if !manifestExists then
    [Act.logError manifestMissingMsg, Act.exitCode 1]
  else
    match execTag ("modid".data) manifest, execTag ("version".data) manifest,
          execTag ("name".data) manifest with
    | some _, some _, some mn =>
      environmentDispatch (envOf args modeEnv) mn (versionOf args versionEnv)
    | _, _, _ => [Act.logError missingFieldsMsg, Act.exitCode 1]

/-! The final bundler, build.js lines 172-195 (`packMod`). -/

def sevenZipBinaryPath (root : Str) : Str :=
  joinPath (joinPath (joinPath (joinPath root ("node_modules".data)) ("7z-bin".data))
    ("linux".data)) ("7zzs".data)

-- build.js lines 173-176: the output path of the final archive.
def finalZipPathOf (root outputFileName modVersion : Str) : Str :=
  joinPath root (outputFileName ++ '_' :: modVersion ++ ".zip".data)

def sevenZipCmdStr (bin zipPath stagingDir : Str) : Str :=
  quoteStr bin ++ " a ".data ++ quoteStr zipPath ++ ' ' ::
    quoteStr (stagingDir ++ "/*".data)

-- `packMod(outputFileName)`: delete an already existing archive of the same
-- name, log and run the 7z command, delete the staging directory, log the
-- result.  The 7z call is modelled as succeeding.
def packModTrace (root stagingDir outputFileName modVersion : Str)
    (zipExists : Bool) : List Act :=
  (if zipExists then [Act.rmFile (finalZipPathOf root outputFileName modVersion)]
   else []) ++
  [Act.log ("Zipping final mod: ".data ++
     sevenZipCmdStr (sevenZipBinaryPath root)
       (finalZipPathOf root outputFileName modVersion) stagingDir),
   Act.sevenZipCall (finalZipPathOf root outputFileName modVersion) stagingDir,
   Act.rmStagingDir,
   Act.log ("Built ".data ++ outputFileName ++ " mod: ".data ++
     finalZipPathOf root outputFileName modVersion),
   Act.log ("ZIP_FILE:".data ++ finalZipPathOf root outputFileName modVersion)]

/-! Lemmas about the inner for loop. -/

theorem takePart_split (sz : α → Nat) (max : Nat) :
    ∀ (l : List α) (acc : Nat), (takePart sz max acc l).1 ++ (takePart sz max acc l).2 = l := by
  intro l
  induction l with
  | nil => intro acc; simp [takePart]
  | cons f rest ih =>
    intro acc
    by_cases h : max < acc + sz f
    · simp [takePart, h]
    · simp [takePart, h, ih]

theorem takePart_sum (sz : α → Nat) (max : Nat) :
    ∀ (l : List α) (acc : Nat), acc ≤ max →
      acc + (((takePart sz max acc l).1).map sz).sum ≤ max := by
  intro l
  induction l with
  | nil => intro acc hacc; simpa [takePart] using hacc
  | cons f rest ih =>
    intro acc hacc
    by_cases h : max < acc + sz f
    · simpa [takePart, h] using hacc
    · have h' : acc + sz f ≤ max := by omega
      have := ih (acc + sz f) h'
      simp only [takePart, h, if_false, List.map_cons, List.sum_cons]
      omega

theorem takePart_progress (sz : α → Nat) (max : Nat) (f : α) (rest : List α)
    (h : sz f ≤ max) :
    takePart sz max 0 (f :: rest) =
      (f :: (takePart sz max (sz f) rest).1, (takePart sz max (sz f) rest).2) := by
  have hc : ¬ (max < 0 + sz f) := by omega
  simp only [takePart]
  rw [if_neg hc]
  simp

theorem takePart_stuck (sz : α → Nat) (max : Nat) (f : α) (rest : List α)
    (h : max < sz f) :
    takePart sz max 0 (f :: rest) = ([], f :: rest) := by
  have hc : max < 0 + sz f := by omega
  simp only [takePart]
  rw [if_pos hc]

/-! Lemmas about the outer while loop. -/

-- A file too large for an empty part stalls the loop: the round takes no
-- file, the remaining list never shrinks, and no amount of fuel (loop
-- rounds) finishes the run.
theorem oversized_head_diverges (sz : α → Nat) (max : Nat) (f : α) (rest : List α)
    (h : max < sz f) :
    ∀ fuel, pakPartsFuel sz max fuel (f :: rest) = none := by
  intro fuel
  induction fuel with
  | zero => simp [pakPartsFuel]
  | succ n ih => simp [pakPartsFuel, takePart_stuck sz max f rest h, ih]

-- When every file fits under the bound on its own, the loop terminates
-- within one round of fuel per file and computes an exact partition into
-- non-empty parts each of total size ≤ max.
theorem pakPartsFuel_sound (sz : α → Nat) (max : Nat) :
    ∀ (fuel : Nat) (l : List α), l.length ≤ fuel → (∀ a ∈ l, sz a ≤ max) →
    ∃ parts, pakPartsFuel sz max fuel l = some parts ∧
      parts.flatten = l ∧ ∀ p ∈ parts, ((p.map sz).sum ≤ max ∧ p ≠ []) := by
  intro fuel
  induction fuel with
  | zero =>
    intro l hl _
    have : l = [] := List.length_eq_zero.mp (Nat.le_zero.mp hl)
    subst this
    exact ⟨[], by simp [pakPartsFuel]⟩
  | succ n ih =>
    intro l hl hall
    cases l with
    | nil => exact ⟨[], by simp [pakPartsFuel]⟩
    | cons f rest =>
      have hf : sz f ≤ max := hall f (List.mem_cons_self f rest)
      have hprog := takePart_progress sz max f rest hf
      have hsplit := takePart_split sz max (f :: rest) 0
      have hlen : (takePart sz max 0 (f :: rest)).2.length ≤ n := by
        have hll := congrArg List.length hsplit
        rw [hprog] at hll ⊢
        simp only [List.length_append, List.length_cons] at hll
        simp only [List.length_cons] at hl
        dsimp only at hll ⊢
        omega
      have hmem : ∀ a ∈ (takePart sz max 0 (f :: rest)).2, sz a ≤ max := by
        intro a ha
        apply hall
        rw [← hsplit]
        exact List.mem_append_right _ ha
      obtain ⟨parts, hp, hflat, hbound⟩ := ih (takePart sz max 0 (f :: rest)).2 hlen hmem
      refine ⟨(takePart sz max 0 (f :: rest)).1 :: parts, ?_, ?_, ?_⟩
      · simp only [pakPartsFuel, hp]
      · simp [hflat, hsplit]
      · intro p hp'
        rcases List.mem_cons.mp hp' with hh | ht
        · subst hh
          constructor
          · have := takePart_sum sz max (f :: rest) 0 (Nat.zero_le max)
            omega
          · rw [hprog]; simp
        · exact hbound p ht

/-! Claims C1, C2, C3: the size-splitting partition. -/

/-- Claim C1.  The claim says that a single file whose size alone exceeds the
2 GiB bound is emitted as the sole member of its own oversized part and the
packer terminates.  The code does the opposite: the inner loop of
`compressToPak` breaks on `pakSize + fileSize > maxSizeBytes` without
checking that the current part is non-empty, so on the input consisting of
one file of 2147483649 bytes the round computes an empty part, the file index
never advances, and no number of loop rounds (fuel) finishes the run: the
oversized file is never packed.  This contradicts the claim (a code bug, the
specification states the non-empty guard explicitly). -/
theorem c1_oversized_file_not_tolerated :
    takePart (fun s => s) maxSizeBytes 0 [2147483649] = ([], [2147483649]) ∧
    (∀ fuel, pakPartsFuel (fun s => s) maxSizeBytes fuel [2147483649] = none) ∧
    compressToPakPlan [2147483649] = none := by
  refine ⟨?_, ?_, ?_⟩
  · exact takePart_stuck (fun s => s) maxSizeBytes 2147483649 [] (by norm_num [maxSizeBytes])
  · exact oversized_head_diverges (fun s => s) maxSizeBytes 2147483649 []
      (by norm_num [maxSizeBytes])
  · rfl

/-- Claim C2, counterexample to the claim as stated.  For the non-empty file
list consisting of one file of 2147483649 bytes the packer produces no parts
at all (the loop never terminates, `none` for the canonical fuel), so no
partition of the input into parts exists; in particular the oversized file
appears in no part. -/
theorem c2_partition_counterexample :
    compressToPakPlan [2147483649] = none ∧
    ¬ ∃ parts, compressToPakPlan [2147483649] = some parts ∧
        parts.flatten = [2147483649] := by
  refine ⟨rfl, ?_⟩
  rintro ⟨parts, hp, -⟩
  rw [show compressToPakPlan [2147483649] = none from rfl] at hp
  exact Option.noConfusion hp

/-- Claim C2, amended: for every non-empty file list in which every single
file size is at most the 2 GiB maximum, the packer terminates and the parts
partition the input exactly (concatenating the parts gives back the input
list, so every file lands in exactly one part, in order, with no omissions
and no duplicates), each part is non-empty and each part total is at most
the maximum.  (The oversized-singleton exception of the original claim never
arises: on an oversized file the code diverges instead, see the C1 and C2
counterexample facts.) -/
theorem c2_partition_exact (sizes : List Nat) (hne : sizes ≠ [])
    (hall : ∀ s ∈ sizes, s ≤ maxSizeBytes) :
    ∃ parts, compressToPakPlan sizes = some parts ∧
      parts.flatten = sizes ∧ ∀ p ∈ parts, (p.sum ≤ maxSizeBytes ∧ p ≠ []) := by
  obtain ⟨parts, hp, hflat, hbound⟩ :=
    pakPartsFuel_sound (fun s => s) maxSizeBytes sizes.length sizes le_rfl hall
  refine ⟨parts, hp, hflat, ?_⟩
  intro p hp'
  have := hbound p hp'
  simpa using this

/-- Witness for the amended claim C2 at the concrete file list [1, 2, 3]. -/
theorem c2_partition_exact_witness :
    ∃ parts, compressToPakPlan [1, 2, 3] = some parts ∧
      parts.flatten = [1, 2, 3] ∧ ∀ p ∈ parts, (p.sum ≤ maxSizeBytes ∧ p ≠ []) :=
  c2_partition_exact [1, 2, 3] (by decide) (by decide)

/-- Claim C3: for input sizes [1 GiB, 1 GiB, 1 GiB] and the 2 GiB bound the
packer produces exactly two parts, the first holding the first two files
(total exactly 2 GiB, equal to the bound, which is allowed: the strict
comparison closes a part only when adding the next file would strictly
exceed the maximum), the second holding the third file alone. -/
theorem c3_boundary_two_parts :
    compressToPakPlan [1073741824, 1073741824, 1073741824] =
      some [[1073741824, 1073741824], [1073741824]] := by rfl

/-! Lemmas about the part renaming and naming. -/

theorem listStartsWith_self : ∀ s : Str, listStartsWith s s = true := by
  intro s
  induction s with
  | nil => rfl
  | cons c cs ih => simp [listStartsWith, ih]

-- `replace` on a string that ends in the pattern and has no earlier
-- occurrence of it rewrites exactly that final occurrence.
theorem replaceFirst_at_end (pat rep : Str) :
    ∀ stem : Str, pat ≠ [] →
      (∀ k, k < stem.length → listStartsWith ((stem ++ pat).drop k) pat = false) →
      replaceFirst pat rep (stem ++ pat) = stem ++ rep := by
  intro stem
  induction stem with
  | nil =>
    intro hne _
    cases pat with
    | nil => exact absurd rfl hne
    | cons p ps =>
      simp only [List.nil_append, replaceFirst]
      rw [if_pos (listStartsWith_self (p :: ps))]
      simp [List.drop_length]
  | cons c stem' ih =>
    intro hne hocc
    have h0 := hocc 0 (by simp)
    simp only [List.drop_zero, List.cons_append] at h0
    simp only [List.cons_append, replaceFirst]
    rw [if_neg (by simp [h0])]
    have htail : ∀ k, k < stem'.length →
        listStartsWith ((stem' ++ pat).drop k) pat = false := by
      intro k hk
      have := hocc (k + 1) (by simpa using Nat.succ_lt_succ hk)
      simpa [List.drop_succ_cons] using this
    simp only [List.append_eq]
    rw [ih hne htail]

-- The `if` on the part number in the remaining-files branch is the "-partN"
-- name in both branches.
theorem renamed_path_eq (base : Str) (partNo : Nat) :
    (if partNo = 0 then partPakPath base 0 else partPakPath base partNo) =
      partPakPath base partNo := by
  by_cases hp0 : partNo = 0 <;> simp [hp0]

-- From part number ≥ 1 on, a terminating run of the named loop emits parts
-- named "-partN", "-part(N+1)", ... and partitions its input exactly.
theorem pakLoopNamed_pos (sz : α → Nat) (max : Nat) (base : Str) :
    ∀ (fuel : Nat) (l : List α) (partNo : Nat), l.length ≤ fuel →
      (∀ a ∈ l, sz a ≤ max) → 1 ≤ partNo →
      ∃ entries, pakLoopNamed sz max base fuel partNo l = some entries ∧
        entries.map Prod.fst =
          (List.range entries.length).map (fun i => partPakPath base (partNo + i)) ∧
        (entries.map Prod.snd).flatten = l := by
  intro fuel
  induction fuel with
  | zero =>
    intro l partNo hlen _ _
    have hl : l = [] := List.length_eq_zero.mp (Nat.le_zero.mp hlen)
    subst hl
    exact ⟨[], by simp [pakLoopNamed]⟩
  | succ n ih =>
    intro l partNo hlen hall hpos
    cases l with
    | nil => exact ⟨[], by simp [pakLoopNamed]⟩
    | cons f rest =>
      have hf : sz f ≤ max := hall f (List.mem_cons_self f rest)
      have hprog := takePart_progress sz max f rest hf
      have hsplit := takePart_split sz max (f :: rest) 0
      have hlen2 : (takePart sz max 0 (f :: rest)).2.length ≤ n := by
        have hll := congrArg List.length hsplit
        rw [hprog] at hll ⊢
        simp only [List.length_append, List.length_cons] at hll
        simp only [List.length_cons] at hlen
        dsimp only at hll ⊢
        omega
      have hmem : ∀ a ∈ (takePart sz max 0 (f :: rest)).2, sz a ≤ max := by
        intro a ha
        apply hall
        rw [← hsplit]
        exact List.mem_append_right _ ha
      have hp0 : ¬ (partNo = 0) := by omega
      by_cases hE : (takePart sz max 0 (f :: rest)).2.isEmpty
      · have h2 : (takePart sz max 0 (f :: rest)).2 = [] := by
          simpa [List.isEmpty_iff] using hE
        refine ⟨[(partPakPath base partNo, (takePart sz max 0 (f :: rest)).1)], ?_, ?_, ?_⟩
        · simp only [pakLoopNamed]
          rw [if_pos hE, h2]
          simp [pakLoopNamed, hp0]
        · have hr1 : List.range 1 = [0] := rfl
          simp [hr1]
        · simpa [h2] using hsplit
      · obtain ⟨entries', he', hnames', hflat'⟩ :=
          ih (takePart sz max 0 (f :: rest)).2 (partNo + 1) hlen2 hmem (by omega)
        refine ⟨(partPakPath base partNo, (takePart sz max 0 (f :: rest)).1) :: entries',
          ?_, ?_, ?_⟩
        · simp only [pakLoopNamed]
          rw [if_neg hE, he']
          simp [hp0]
        · simp only [List.map_cons, List.length_cons, List.range_succ_eq_map,
            List.map_map]
          refine congrArg₂ List.cons (by simp) ?_
          rw [hnames']
          refine congrArg₂ List.map ?_ rfl
          funext i
          simp [Function.comp]
          congr 1
          omega
        · simp only [List.map_cons, List.flatten_cons, hflat']
          exact hsplit

/-- Claim C4: naming of the parts.  For a run of the pak loop on a non-empty
file list (restricted, as termination requires, to files within the 2 GiB
bound) over an output path of the shape stem ++ ".pak" whose only occurrence
of ".pak" is that final extension: the parts partition the input; if exactly
one part is produced it keeps the plain, un-suffixed output path as its
final name; and as soon as a second part becomes necessary the first part is
renamed to stem ++ "-part0" ++ ".pak" (the suffix sits right before the
extension) and every part i ends up named stem ++ "-parti" ++ ".pak". -/
theorem c4_part_naming (base stem : Str) (sizes : List Nat)
    (hbase : base = stem ++ ".pak".data)
    (hocc : ∀ k, k < stem.length → listStartsWith (base.drop k) (".pak".data) = false)
    (hne : sizes ≠ [])
    (hall : ∀ s ∈ sizes, s ≤ maxSizeBytes) :
    ∃ entries,
      pakLoopNamed (fun s => s) maxSizeBytes base sizes.length 0 sizes = some entries ∧
      entries ≠ [] ∧
      (entries.map Prod.snd).flatten = sizes ∧
      (entries.length = 1 → entries.map Prod.fst = [base]) ∧
      (2 ≤ entries.length →
        entries.map Prod.fst =
          (List.range entries.length).map (fun i => stem ++ partSfx i)) := by
  have hpp : ∀ i, partPakPath base i = stem ++ partSfx i := by
    intro i
    unfold partPakPath
    rw [hbase]
    refine replaceFirst_at_end (".pak".data) (partSfx i) stem (by decide) ?_
    intro k hk
    have := hocc k hk
    rw [hbase] at this
    exact this
  cases sizes with
  | nil => exact absurd rfl hne
  | cons f rest =>
    have hf : (fun s => s) f ≤ maxSizeBytes := hall f (List.mem_cons_self f rest)
    have hprog := takePart_progress (fun s => s) maxSizeBytes f rest hf
    have hsplit := takePart_split (fun s => s) maxSizeBytes (f :: rest) 0
    have hlen2 : (takePart (fun s => s) maxSizeBytes 0 (f :: rest)).2.length ≤ rest.length := by
      have hll := congrArg List.length hsplit
      rw [hprog] at hll ⊢
      simp only [List.length_append, List.length_cons] at hll
      dsimp only at hll ⊢
      omega
    have hmem : ∀ a ∈ (takePart (fun s => s) maxSizeBytes 0 (f :: rest)).2,
        (fun s => s) a ≤ maxSizeBytes := by
      intro a ha
      apply hall
      rw [← hsplit]
      exact List.mem_append_right _ ha
    by_cases hE : (takePart (fun s => s) maxSizeBytes 0 (f :: rest)).2.isEmpty
    · have h2 : (takePart (fun s => s) maxSizeBytes 0 (f :: rest)).2 = [] := by
        simpa [List.isEmpty_iff] using hE
      refine ⟨[(base, (takePart (fun s => s) maxSizeBytes 0 (f :: rest)).1)],
        ?_, ?_, ?_, ?_, ?_⟩
      · simp only [List.length_cons, pakLoopNamed]
        rw [if_pos hE, h2]
        simp [pakLoopNamed]
      · simp
      · simpa [h2] using hsplit
      · intro _
        simp
      · intro h
        simp at h
    · obtain ⟨entries', he', hnames', hflat'⟩ :=
        pakLoopNamed_pos (fun s => s) maxSizeBytes base rest.length
          (takePart (fun s => s) maxSizeBytes 0 (f :: rest)).2 1 hlen2 hmem le_rfl
      have hene' : entries' ≠ [] := by
        intro h
        subst h
        simp only [List.map_nil, List.flatten_nil] at hflat'
        rw [← hflat'] at hE
        simp at hE
      refine ⟨(partPakPath base 0, (takePart (fun s => s) maxSizeBytes 0 (f :: rest)).1)
          :: entries', ?_, ?_, ?_, ?_, ?_⟩
      · simp only [List.length_cons, pakLoopNamed]
        rw [if_neg hE, he']
        simp
      · simp
      · simp only [List.map_cons, List.flatten_cons, hflat']
        exact hsplit
      · intro h
        exfalso
        simp only [List.length_cons] at h
        exact hene' (List.length_eq_zero.mp (by omega))
      · intro _
        simp only [List.map_cons, hnames', List.length_cons, List.range_succ_eq_map,
          List.map_map]
        refine congrArg₂ List.cons (by simp [hpp]) ?_
        refine congrArg₂ List.map ?_ rfl
        funext i
        simp only [Function.comp, hpp]
        congr 2
        omega

/-- Witness for claim C4, at the concrete output path "mod.pak"
(stem "mod") and the file sizes [2147483648, 5], which force two parts. -/
theorem c4_part_naming_witness :
    ∃ entries,
      pakLoopNamed (fun s => s) maxSizeBytes ("mod.pak".data) ([2147483648, 5].length) 0
        [2147483648, 5] = some entries ∧
      entries ≠ [] ∧
      (entries.map Prod.snd).flatten = [2147483648, 5] ∧
      (entries.length = 1 → entries.map Prod.fst = [("mod.pak".data)]) ∧
      (2 ≤ entries.length →
        entries.map Prod.fst =
          (List.range entries.length).map (fun i => ("mod".data) ++ partSfx i)) :=
  c4_part_naming ("mod.pak".data) ("mod".data) [2147483648, 5] (by decide)
    (by decide) (by decide) (by decide)

/-! Lemmas about the traversal and the `.pak` filter. -/

-- A pattern that avoids a character cannot start at or before that
-- character: matching a pattern against `xs ++ c :: ys` from the left is the
-- same as matching it against `xs` alone.
theorem listStartsWith_append_mid (c : Char) :
    ∀ (pat xs ys : Str), c ∉ pat →
      listStartsWith (xs ++ c :: ys) pat = listStartsWith xs pat := by
  intro pat
  induction pat with
  | nil =>
    intro xs ys _
    simp [listStartsWith]
  | cons p ps ih =>
    intro xs ys hc
    cases xs with
    | nil =>
      have hcp : (c == p) = false :=
        beq_eq_false_iff_ne.mpr (fun h => hc (by simp [h]))
      simp [listStartsWith, hcp]
    | cons x xs' =>
      simp only [List.cons_append, listStartsWith, List.append_eq]
      rw [ih xs' ys (fun h => hc (List.mem_cons_of_mem p h))]

-- The separator never lowercases into the extension, so the full path ends
-- in ".pak" (case-insensitively) exactly when the file name itself does.
theorem endsPakCI_joinPath (d nm : Str) : endsPakCI (joinPath d nm) = endsPakCI nm := by
  have hsl : Char.toLower '/' = '/' := rfl
  have hshape : (lowerChars (joinPath d nm)).reverse =
      (lowerChars nm).reverse ++ '/' :: (lowerChars d).reverse := by
    unfold lowerChars joinPath
    simp only [List.map_append, List.map_cons, List.reverse_append, List.reverse_cons,
      List.append_assoc, List.singleton_append, hsl]
  unfold endsPakCI listEndsWith
  rw [hshape]
  exact listStartsWith_append_mid '/' ((".pak".data).reverse)
    ((lowerChars nm).reverse) ((lowerChars d).reverse) (by decide)

/-- Claim C8: the enumeration of `buildFileList` is exactly the full
recursive enumeration with every file whose name, lowercased, ends in ".pak"
removed (the source tests the full path; the name-level statement is
equivalent because the path separator never sits inside a ".pak" suffix).
Consequently a leftover archive in the tree is never re-included in a new
packing pass, whatever the casing of its extension. -/
theorem c8_enumeration_excludes_paks :
    ∀ (t : EntryList) (dir : Str),
      buildFileList dir t =
        ((allFiles dir t).filter (fun x => !(endsPakCI x.2.1))).map (fun x => (x.1, x.2.2)) :=
  @EntryList.rec
    (fun e => ∀ dir, entryBuildFiles dir e =
      ((entryAllFiles dir e).filter (fun x => !(endsPakCI x.2.1))).map (fun x => (x.1, x.2.2)))
    (fun t => ∀ dir, buildFileList dir t =
      ((allFiles dir t).filter (fun x => !(endsPakCI x.2.1))).map (fun x => (x.1, x.2.2)))
    (fun nm sz => by
      intro dir
      by_cases h : endsPakCI nm <;>
        simp [entryBuildFiles, entryAllFiles, endsPakCI_joinPath, h])
    (fun nm subs ih => by
      intro dir
      simpa [entryBuildFiles, entryAllFiles] using ih (joinPath dir nm))
    (by intro dir; simp [buildFileList, allFiles])
    (fun e rest ihe ihr => by
      intro dir
      simp [buildFileList, allFiles, List.filter_append, ihe dir, ihr dir])

/-- Claim C6: when the recursive enumeration of the source directory yields
no files, `compressToPak` logs the error and exits with code 1, its whole
trace being exactly those two actions: no external compression tool is ever
invoked and no (empty) archive is produced. -/
theorem c6_empty_enumeration_fails (tree : EntryList) (dir base : Str)
    (h : buildFileList dir tree = []) :
    compressToPakTrace tree dir base =
      [Act.logError (noFilesMsg dir), Act.exitCode 1] ∧
    ∀ a ∈ compressToPakTrace tree dir base, Act.isZipCall a = false := by
  have ht : compressToPakTrace tree dir base =
      [Act.logError (noFilesMsg dir), Act.exitCode 1] := by
    simp [compressToPakTrace, h]
  refine ⟨ht, ?_⟩
  rw [ht]
  intro a ha
  rcases List.mem_cons.mp ha with rfl | ha'
  · rfl
  · rcases List.mem_cons.mp ha' with rfl | ha''
    · rfl
    · exact absurd ha'' (List.not_mem_nil a)

/-- Witness for claim C6: a directory containing only a leftover archive
"leftover.pak" enumerates to the empty file list, and the packer fails
before any zip invocation. -/
theorem c6_empty_enumeration_fails_witness :
    compressToPakTrace (EntryList.cons (Entry.file ("leftover.pak".data) 100) EntryList.nil)
        ("Data".data) ("Data/m.pak".data) =
      [Act.logError (noFilesMsg ("Data".data)), Act.exitCode 1] ∧
    ∀ a ∈ compressToPakTrace
        (EntryList.cons (Entry.file ("leftover.pak".data) 100) EntryList.nil)
        ("Data".data) ("Data/m.pak".data), Act.isZipCall a = false :=
  c6_empty_enumeration_fails
    (EntryList.cons (Entry.file ("leftover.pak".data) 100) EntryList.nil)
    ("Data".data) ("Data/m.pak".data) (by decide)

/-! Claims C5, C7, C9, C10: bundling, manifest validation, dispatch, help. -/

/-- Claim C5, counterexample to the claim as stated.  `packMod` is invoked
with the output file name modName ++ "_" ++ cliVersion and itself appends
"_" ++ manifestVersion ++ ".zip", so with product name "Foo", flag version
"main" and manifest version "1.2" the one archive the bundler produces is
named "Foo_main_1.2.zip" — not "name_version.zip" under either reading of
"version" ("Foo_1.2.zip" with the manifest version, "Foo_main.zip" with the
flag version). -/
theorem c5_final_zip_name_counterexample :
    sevenZipTargets (packModTrace ("R".data) ("T".data)
        (("Foo".data) ++ '_' :: ("main".data)) ("1.2".data) false) =
      [finalZipPathOf ("R".data) (("Foo".data) ++ '_' :: ("main".data)) ("1.2".data)] ∧
    finalZipPathOf ("R".data) (("Foo".data) ++ '_' :: ("main".data)) ("1.2".data) =
      "R/Foo_main_1.2.zip".data ∧
    finalZipPathOf ("R".data) (("Foo".data) ++ '_' :: ("main".data)) ("1.2".data) ≠
      "R/Foo_1.2.zip".data ∧
    finalZipPathOf ("R".data) (("Foo".data) ++ '_' :: ("main".data)) ("1.2".data) ≠
      "R/Foo_main.zip".data := by decide

/-- Claim C5, amended: for every build the final bundler produces exactly one
output archive, at the project root, named
modName ++ "_" ++ cliVersion ++ "_" ++ manifestVersion ++ ".zip" (the name
`packMod` receives already carries the flag version, and `packMod` appends
the manifest version); if a file of that exact name already exists, deleting
it is the very first action of the bundler, before the archival tool runs
(overwrite, not versioned accumulation). -/
theorem c5_final_bundle (root stagingDir modName cliVersion modVersion : Str)
    (zipExists : Bool) :
    sevenZipTargets (packModTrace root stagingDir (modName ++ '_' :: cliVersion)
        modVersion zipExists) =
      [finalZipPathOf root (modName ++ '_' :: cliVersion) modVersion] ∧
    finalZipPathOf root (modName ++ '_' :: cliVersion) modVersion =
      root ++ '/' :: modName ++ '_' :: cliVersion ++ '_' :: modVersion ++ ".zip".data ∧
    (zipExists = true →
      (packModTrace root stagingDir (modName ++ '_' :: cliVersion) modVersion
          zipExists).head? =
        some (Act.rmFile (finalZipPathOf root (modName ++ '_' :: cliVersion)
          modVersion))) := by
  refine ⟨?_, ?_, ?_⟩
  · cases zipExists <;> simp [packModTrace, sevenZipTargets]
  · simp [finalZipPathOf, joinPath]
  · intro hz
    subst hz
    simp [packModTrace]

/-- Witness for the amended claim C5 at concrete values, with an archive of
the target name already present: the delete comes first and the single
archival call targets "R/Foo_main_1.2.zip". -/
theorem c5_final_bundle_witness :
    sevenZipTargets (packModTrace ("R".data) ("T".data)
        (("Foo".data) ++ '_' :: ("main".data)) ("1.2".data) true) =
      [finalZipPathOf ("R".data) (("Foo".data) ++ '_' :: ("main".data)) ("1.2".data)] ∧
    (packModTrace ("R".data) ("T".data) (("Foo".data) ++ '_' :: ("main".data))
        ("1.2".data) true).head? =
      some (Act.rmFile (finalZipPathOf ("R".data)
        (("Foo".data) ++ '_' :: ("main".data)) ("1.2".data))) :=
  ⟨(c5_final_bundle ("R".data) ("T".data) ("Foo".data) ("main".data) ("1.2".data) true).1,
   (c5_final_bundle ("R".data) ("T".data) ("Foo".data) ("main".data) ("1.2".data) true).2.2
     rfl⟩

/-- Claim C7: whenever any of the three manifest tags yields no content (and
the run gets past help and flag validation with the manifest file present),
the build emits the one fixed error message — the same for every combination
of missing fields, so it cannot identify which field is missing — and exits
with code 1; the whole trace is exactly those two actions, so no staging
directory mutation (delete, create or copy) has happened. -/
theorem c7_missing_manifest_fields (args : List Str) (modeEnv versionEnv : Option Str)
    (manifest : Str)
    (hHelp : args.contains ("--help".data) = false)
    (hEnv : validEnvironments.contains (envOf args modeEnv) = true)
    (hVer : validVersions.contains (versionOf args versionEnv) = true)
    (hMissing : execTag ("modid".data) manifest = none ∨
      execTag ("version".data) manifest = none ∨
      execTag ("name".data) manifest = none) :
    mainTrace args modeEnv versionEnv true manifest =
      [Act.logError missingFieldsMsg, Act.exitCode 1] ∧
    ∀ a ∈ mainTrace args modeEnv versionEnv true manifest, stagingMutation a = false := by
  have ht : mainTrace args modeEnv versionEnv true manifest =
      [Act.logError missingFieldsMsg, Act.exitCode 1] := by
    unfold mainTrace
    simp only [hHelp, hEnv, hVer, Bool.not_true, Bool.false_eq_true, if_false,
      Bool.not_false, Bool.true_eq_false, if_true]
    cases h1 : execTag ("modid".data) manifest with
    | none => simp
    | some mi =>
      cases h2 : execTag ("version".data) manifest with
      | none => simp
      | some mv =>
        cases h3 : execTag ("name".data) manifest with
        | none => simp
        | some mn =>
          rcases hMissing with h | h | h <;> simp_all
  refine ⟨ht, ?_⟩
  rw [ht]
  intro a ha
  rcases List.mem_cons.mp ha with rfl | ha'
  · rfl
  · rcases List.mem_cons.mp ha' with rfl | ha''
    · rfl
    · exact absurd ha'' (List.not_mem_nil a)

/-- Witness for claim C7: with no flags, no environment overrides, and a
manifest containing none of the three tags, the build stops at the fixed
missing-fields error without touching the staging directory. -/
theorem c7_missing_manifest_fields_witness :
    mainTrace [] none none true ("no tags here".data) =
      [Act.logError missingFieldsMsg, Act.exitCode 1] ∧
    ∀ a ∈ mainTrace [] none none true ("no tags here".data),
      stagingMutation a = false :=
  c7_missing_manifest_fields [] none none ("no tags here".data) (by decide) (by decide)
    (by decide) (Or.inl (by decide))

/-- Claim C9: the environment dispatch runs the identical build sequence for
"prod" and for "dev" — the filesystem and build steps (staging delete,
staging create, copy, pack, bundle) are the same list with the same
arguments for both branches; the two branches differ only in the progress
log line, which names the environment and is filtered out here. -/
theorem c9_env_parity (modName version : Str) :
    (environmentDispatch ("prod".data) modName version).filter
        (fun a => !(Act.isLogAct a)) =
      (environmentDispatch ("dev".data) modName version).filter
        (fun a => !(Act.isLogAct a)) ∧
    (environmentDispatch ("prod".data) modName version).filter
        (fun a => !(Act.isLogAct a)) =
      [Act.rmStagingDir, Act.mkStagingDir, Act.copySrcToStaging,
       Act.packDataStep, Act.packModStep (modName ++ '_' :: version)] := by
  have h2 : ¬ (("dev".data : Str) = "prod".data) := by decide
  constructor <;> simp [environmentDispatch, h2, Act.isLogAct]

/-- Claim C10: whenever the argument list contains "--help", the process
prints the usage text and exits with code 0 — the whole trace is exactly
those two actions — regardless of every other flag value, of the
environment overrides and of the manifest, because the help check precedes
flag-value validation. -/
theorem c10_help_short_circuit (args : List Str) (modeEnv versionEnv : Option Str)
    (manifestExists : Bool) (manifest : Str)
    (h : args.contains ("--help".data) = true) :
    mainTrace args modeEnv versionEnv manifestExists manifest =
      [Act.log usageMsg, Act.exitCode 0] := by
  unfold mainTrace
  simp [h]
  intro hmem
  exact absurd (by simpa using h) hmem

/-- Witness for claim C10: the argument list carries an invalid --env value
(the computed environment "bogus" fails validation) together with "--help",
and the run still prints usage and exits 0. -/
theorem c10_help_short_circuit_witness :
    mainTrace [("--env=bogus".data), ("--help".data)] none none true [] =
      [Act.log usageMsg, Act.exitCode 0] ∧
    validEnvironments.contains
      (envOf [("--env=bogus".data), ("--help".data)] none) = false :=
  ⟨c10_help_short_circuit [("--env=bogus".data), ("--help".data)] none none true []
     (by decide), by decide⟩
